import Mathlib

/-!
A shallow embedding of the adaptive playback controller of
X-MAN-TG/X-Media-Player (the player portion of src/theme.js), together
with theorems checking its specification: format resolution, engine
error recovery, engine lifecycle, audio-track forcing, seek clamping,
buffer telemetry, surface error messages, buffered-bar updates and the
unmute timer discipline.

Modelling conventions: JavaScript strings are Lean `String` (with the
character-level operations spelled out on `List Char`); numbers that the
code treats as real-valued media times are `ℚ`; a JavaScript value that
may be `null`/`undefined` is an `Option`; the result of `new URL(url)`
is passed in as an `Option String` holding the pathname when parsing
succeeds and `none` when the constructor throws.
-/

namespace XMediaPlayer

/-- JS `s.split(c)` for a single-character separator, on char lists:
`"".split(c)` gives `[""]`, and separators at the ends give empty
fields, exactly as in JavaScript. -/
def splitOnChar (c : Char) : List Char → List (List Char)
  | [] => [[]]
  | x :: xs =>
    let r := splitOnChar c xs
    if x = c then [] :: r
    else
      match r with
      | [] => [[x]]
      | h :: t => (x :: h) :: t

/-- Whether `p` begins the list `l` (JS startsWith on char lists). -/
def beginsWith : List Char → List Char → Bool
  | [], _ => true
  | _ :: _, [] => false
  | p :: ps, x :: xs => p == x && beginsWith ps xs

/-- Whether `pat` occurs contiguously inside the list. -/
def listHasSub (pat : List Char) : List Char → Bool
  | [] => beginsWith pat []
  | x :: xs => beginsWith pat (x :: xs) || listHasSub pat xs

/-- JS `s.includes(pat)`: contiguous substring containment. -/
def jsIncludes (s pat : String) : Bool :=
  listHasSub pat.data s.data

/-- JS `arr[0]` after `split('?')`: the characters before the first
question mark. -/
def takeUntilChar (c : Char) (l : List Char) : List Char :=
  l.takeWhile (fun x => x ≠ c)

/-- `_getExt` from src/theme.js lines 667-674. `pathname?` stands for
`new URL(url).pathname`: `some p` when the URL parses, `none` when the
constructor throws and the catch branch runs on the raw url. Both
branches compute `base.split('.').pop().toLowerCase().split('?')[0]`. -/
def getExt (url : String) (pathname? : Option String) : String :=
  let base :=
    match pathname? with
    | some p => p.data
    | none => url.data
  ⟨takeUntilChar '?' (((splitOnChar '.' base).getLastD []).map Char.toLower)⟩

/-- The delivery strategies the controller distinguishes. -/
inductive DeliveryKind
  | HLS
  | DASH
  | Progressive
deriving DecidableEq, Repr

/-- The format-resolution branch of `loadVideo` (src/theme.js lines
106-120): HLS when the extension is m3u8 or the url contains ".m3u8",
else DASH when the extension is mpd or the url contains ".mpd", else
progressive. -/
def classify (url : String) (pathname? : Option String) : DeliveryKind :=
  if getExt url pathname? = "m3u8" ∨ jsIncludes url ".m3u8" = true then .HLS
  else if getExt url pathname? = "mpd" ∨ jsIncludes url ".mpd" = true then .DASH
  else .Progressive

/-- JS truthiness of `video.duration` as used in `duration || 0`:
`none` models NaN/undefined, and a zero duration is falsy too. -/
def jsTruthyDuration (duration? : Option ℚ) : ℚ :=
  match duration? with
  | none => 0
  | some D => if D = 0 then 0 else D

/-- `seek` from src/theme.js lines 461-463: the new value assigned to
`video.currentTime`, namely
`Math.max(0, Math.min(video.duration || 0, video.currentTime + secs))`. -/
def seek (duration? : Option ℚ) (currentTime secs : ℚ) : ℚ :=
  max 0 (min (jsTruthyDuration duration?) (currentTime + secs))

/-- A playback-surface media error, carrying the numeric `code` field of
`video.error` (1 aborted, 2 network, 3 decode, 4 source unsupported). -/
structure MediaError where
  code : Nat
deriving DecidableEq, Repr

/-- `_onVideoError` from src/theme.js lines 216-226: the message handed
to `showError`, namely the `msgs` table lookup with the JS fallbacks
`msgs[err.code] || "Unknown error."` when an error object is present and
`"Could not load video."` when it is absent. -/
def videoErrorMessage (err? : Option MediaError) : String :=
  match err? with
  | none => "Could not load video."
  | some err =>
    if err.code = 1 then "Playback aborted."
    else if err.code = 2 then "Network error. Check the URL and your connection."
    else if err.code = 3 then "Decoding error. Format may be unsupported."
    else if err.code = 4 then "Source not supported or URL is invalid."
    else "Unknown error."

/-- The hls.js error classes the handler distinguishes. -/
inductive HlsErrorType
  | networkError
  | mediaError
  | otherError
deriving DecidableEq, Repr

/-- The `data` payload of an `Hls.Events.ERROR` event: fatality flag,
error class, and the optional `details` string. -/
structure HlsErrorData where
  fatal : Bool
  type : HlsErrorType
  details : Option String
deriving DecidableEq, Repr

/-- JS `s || dflt` on an optional string: `null`/`undefined` and the
empty string are falsy. -/
def jsStringOr (s? : Option String) (dflt : String) : String :=
  match s? with
  | none => dflt
  | some s => if s = "" then dflt else s

/-- The corrective actions the error handler can perform. -/
inductive RecoveryAction
  | startLoad
  | recoverMediaError
  | showError (msg : String)
deriving DecidableEq, Repr

/-- The `Hls.Events.ERROR` handler from src/theme.js lines 164-178, as
the list of corrective actions it performs for one error event: on a
fatal error it switches on the class (network restarts loading, media
invokes `recoverMediaError()`, anything else shows
`"HLS fatal error: " + (data.details || "unknown")`); a non-fatal error
does nothing. -/
def onHlsError (data : HlsErrorData) : List RecoveryAction :=
  if data.fatal then
    match data.type with
    | .networkError => [.startLoad]
    | .mediaError => [.recoverMediaError]
    | .otherError =>
        [.showError ("HLS fatal error: " ++ jsStringOr data.details "unknown")]
  else []

/-- `_getBufferAhead` loop body (src/theme.js lines 613-619): the first
buffered range `(s, e)` with `s ≤ ct ≤ e` yields `e - ct`. -/
def bufferAheadLoop (ct : ℚ) : List (ℚ × ℚ) → Option ℚ
  | [] => none
  | r :: rest =>
    if r.1 ≤ ct ∧ ct ≤ r.2 then some (r.2 - ct) else bufferAheadLoop ct rest

/-- `_getBufferAhead` from src/theme.js lines 611-620: `none` when the
buffered list is empty or no range contains the current time, else the
distance from the current time to the end of the containing range. -/
def getBufferAhead (buffered : List (ℚ × ℚ)) (ct : ℚ) : Option ℚ :=
  if buffered.isEmpty then none
  else bufferAheadLoop ct buffered

/-- The per-instance engine fields the audio handlers read and write:
the `audioTracks` array (`none` when the field is undefined) and the
current audio track index (`hls.js` uses a negative index when no track
is active). -/
structure HlsState where
  audioTracks : Option (List Unit)
  audioTrack : Int
deriving DecidableEq, Repr

/-- The audio-track branch of the `MANIFEST_PARSED` handler
(src/theme.js lines 153-157): when `hlsInstance.audioTracks` is present
and non-empty it executes `hlsInstance.audioTrack = 0`. The Bool
records whether that assignment ran. -/
def onManifestParsed (s : HlsState) : HlsState × Bool :=
  match s.audioTracks with
  | some ts =>
      if 0 < ts.length then ({ s with audioTrack := 0 }, true) else (s, false)
  | none => (s, false)

/-- The `AUDIO_TRACK_LOADED` handler (src/theme.js lines 181-185): when
`hlsInstance.audioTrack < 0` and the track list is non-empty it executes
`hlsInstance.audioTrack = 0`. The Bool records whether that assignment
ran. -/
def onAudioTrackLoaded (s : HlsState) : HlsState × Bool :=
  if s.audioTrack < 0 ∧ 0 < (s.audioTracks.getD []).length
  then ({ s with audioTrack := 0 }, true)
  else (s, false)

/-- Modelled from the spec, for comparison with `onManifestParsed`: the
condition under which the claim says the manifest-parsed handler forces
track 0, namely that multiple audio tracks exist and none is active. -/
def specManifestForce (s : HlsState) : Bool :=
  (match s.audioTracks with
   | some ts => decide (1 < ts.length)
   | none => false) && decide (s.audioTrack < 0)

/-- The module-level engine-lifecycle state: a freshness counter for
engine instance ids, the id held by the `hlsInstance` module variable,
the ids of instances constructed and not yet destroyed, and the active
event subscriptions as (instance id, event name) pairs. -/
structure EngineState where
  nextId : Nat
  hlsInstance : Option Nat
  live : List Nat
  subs : List (Nat × String)
deriving DecidableEq, Repr

/-- `_destroyHls` (src/theme.js lines 187-194): `Hls#destroy` tears the
tracked instance down, which detaches all of its event listeners, and
the module variable is nulled. -/
def destroyHls (s : EngineState) : EngineState :=
  match s.hlsInstance with
  | some i =>
      { s with
          hlsInstance := none,
          live := s.live.erase i,
          subs := s.subs.filter (fun p => p.1 != i) }
  | none => s

/-- The events `_loadHls` subscribes a fresh engine instance to
(src/theme.js lines 153, 164 and 181). -/
def hlsEventNames : List String :=
  ["MANIFEST_PARSED", "ERROR", "AUDIO_TRACK_LOADED"]

/-- The `new Hls(config)` path of `_loadHls` (src/theme.js lines
149-185): a fresh engine instance is constructed, tracked in the module
variable, and subscribed to its events. -/
def createHls (s : EngineState) : EngineState :=
  { nextId := s.nextId + 1,
    hlsInstance := some s.nextId,
    live := s.nextId :: s.live,
    subs := s.subs ++ hlsEventNames.map (fun e => (s.nextId, e)) }

/-- The engine-lifecycle effect of `loadVideo` (src/theme.js lines
89-120): `_destroyHls()` runs before anything else; then only the HLS
branch with the Hls.js capability present and supported constructs a
new engine inside `_loadHls`; every other branch attaches the source
natively and constructs none. -/
def loadVideoEngine (kind : DeliveryKind) (hlsJsPresent hlsJsSupported : Bool)
    (s : EngineState) : EngineState :=
  let s1 := destroyHls s
  match kind with
  | .HLS => if hlsJsPresent && hlsJsSupported then createHls s1 else s1
  | .DASH => s1
  | .Progressive => s1

/-- The lifecycle invariant: the live instances are exactly the one the
module variable tracks, every subscription belongs to that instance,
and every tracked id is below the freshness counter. -/
def EngineInv (s : EngineState) : Prop :=
  s.live = s.hlsInstance.toList
  ∧ (∀ p ∈ s.subs, some p.1 = s.hlsInstance)
  ∧ (∀ i, s.hlsInstance = some i → i < s.nextId)

/-- The module state before any load: no engine, no subscriptions. -/
def initEngine : EngineState := ⟨0, none, [], []⟩

/-- `_onProgress` (src/theme.js lines 239-243): the fraction written to
the buffered-bar width (as a ratio; the source scales it by 100), or
`none` when the handler returns early because the duration is falsy or
nothing is buffered. It reads the end of the last buffered range. -/
def onProgress (duration? : Option ℚ) (buffered : List (ℚ × ℚ)) : Option ℚ :=
  let D := jsTruthyDuration duration?
  if D = 0 ∨ buffered = [] then none
  else
    match buffered.getLast? with
    | some r => some (r.2 / D)
    | none => none

/-- Whether a buffered range contains or lies after the position. -/
def containsOrFollows (p : ℚ) (r : ℚ × ℚ) : Prop :=
  (r.1 ≤ p ∧ p ≤ r.2) ∨ p ≤ r.1

/-- The slice of player state the unmute mechanism touches: the
`unmutePending` flag, the pending unmute timeout delays in
milliseconds, and the surface fields the timeout callback reads. -/
structure UnmuteState where
  unmutePending : Bool
  timers : List Nat
  muted : Bool
  paused : Bool
  currentTime : ℚ
deriving DecidableEq, Repr

/-- The events driving the unmute mechanism: the `playing` and `play`
listeners (src/theme.js lines 199 and 201), expiry of a pending unmute
timeout, and surface state changes. -/
inductive PlayerEvent
  | playing
  | play
  | timerFire
  | setPaused (b : Bool)
  | timeUpdate (t : ℚ)
deriving DecidableEq, Repr

/-- `_scheduleUnmute` (src/theme.js lines 636-649): returns unchanged
when a timer is already pending, else sets the flag and schedules one
100 ms timeout. -/
def scheduleUnmute (s : UnmuteState) : UnmuteState :=
  if s.unmutePending then s
  else { s with unmutePending := true, timers := s.timers ++ [100] }

/-- The timeout callback inside `_scheduleUnmute` (src/theme.js lines
641-648): it unmutes only when playback is not paused and the position
is past 0.1 s, then clears the pending flag. -/
def unmuteTimerFire (s : UnmuteState) : UnmuteState :=
  match s.timers with
  | [] => s
  | _ :: rest =>
      let s1 :=
        if s.paused = false ∧ (1 / 10 : ℚ) < s.currentTime
        then { s with muted := false } else s
      { s1 with unmutePending := false, timers := rest }

/-- One step of the unmute event system. -/
def stepPlayer (e : PlayerEvent) (s : UnmuteState) : UnmuteState :=
  match e with
  | .playing => scheduleUnmute s
  | .play => scheduleUnmute s
  | .timerFire => unmuteTimerFire s
  | .setPaused b => { s with paused := b }
  | .timeUpdate t => { s with currentTime := t }

/-- Folding a sequence of events over the player state. -/
def runPlayer (s : UnmuteState) : List PlayerEvent → UnmuteState
  | [] => s
  | e :: es => runPlayer (stepPlayer e s) es

/-- The state right after `loadVideo` muted the surface for autoplay:
no pending flag, no timers. -/
def initUnmute : UnmuteState := ⟨false, [], true, true, 0⟩

/-- At most one unmute timeout pending, and only with the 100 ms
delay. -/
def UnmuteInv (s : UnmuteState) : Prop :=
  s.timers = if s.unmutePending = true then [100] else []

end XMediaPlayer

namespace XMediaPlayer

/-- C1: the format resolver is a total function that returns HLS exactly
when the extracted extension is m3u8 or the url contains ".m3u8", DASH
exactly when that fails and the extension is mpd or the url contains
".mpd", and Progressive in every remaining case (malformed URLs are the
`pathname? = none` instances, which are classified like any other). -/
theorem c1_format_resolver (url : String) (pathname? : Option String) :
    (classify url pathname? = .HLS ↔
      (getExt url pathname? = "m3u8" ∨ jsIncludes url ".m3u8" = true))
    ∧ (classify url pathname? = .DASH ↔
      (¬(getExt url pathname? = "m3u8" ∨ jsIncludes url ".m3u8" = true)
        ∧ (getExt url pathname? = "mpd" ∨ jsIncludes url ".mpd" = true)))
    ∧ (classify url pathname? = .Progressive ↔
      (¬(getExt url pathname? = "m3u8" ∨ jsIncludes url ".m3u8" = true)
        ∧ ¬(getExt url pathname? = "mpd" ∨ jsIncludes url ".mpd" = true))) := by
  unfold classify
  by_cases h1 : getExt url pathname? = "m3u8" ∨ jsIncludes url ".m3u8" = true
  · simp [h1]
  · by_cases h2 : getExt url pathname? = "mpd" ∨ jsIncludes url ".mpd" = true <;>
      simp [h1, h2]

/-- C1 witness: a signed HLS url with query string resolves to HLS, and
a plain relative mp4 path (which makes the URL constructor throw)
resolves to Progressive. -/
theorem c1_format_resolver_witness :
    classify "https://cdn.example.com/video.m3u8?token=17" (some "/video.m3u8")
      = DeliveryKind.HLS
    ∧ classify "clips/movie.mp4" none = DeliveryKind.Progressive :=
  ⟨(c1_format_resolver "https://cdn.example.com/video.m3u8?token=17"
      (some "/video.m3u8")).1.mpr (by decide),
   (c1_format_resolver "clips/movie.mp4" none).2.2.mpr (by decide)⟩

/-- C5: with a known nonzero duration `D`, seeking by `d` from position
`p` assigns the clamp of `p + d` into `[0, D]`. -/
theorem c5_seek_clamps (D p d : ℚ) (hD : D ≠ 0) :
    seek (some D) p d = max 0 (min D (p + d)) := by
  simp [seek, jsTruthyDuration, hD]

/-- C5 witness: seeking -10 from 3.0 with duration 120 lands on 0, and
seeking +10 from 115 lands on the duration boundary 120. -/
theorem c5_seek_clamps_witness :
    seek (some (120 : ℚ)) 3 (-10) = 0 ∧ seek (some (120 : ℚ)) 115 10 = 120 := by
  constructor
  · rw [c5_seek_clamps 120 3 (-10) (by norm_num)]
    norm_num
  · rw [c5_seek_clamps 120 115 10 (by norm_num)]
    norm_num

/-- C10: when the duration is unavailable (NaN or undefined, modelled by
`none`) or zero, `video.duration || 0` is 0, so the assigned position is
exactly 0 no matter the current position or delta. -/
theorem c10_seek_no_duration (p d : ℚ) :
    seek none p d = 0 ∧ seek (some 0) p d = 0 := by
  refine ⟨?_, ?_⟩ <;>
    simp [seek, jsTruthyDuration, max_eq_left (min_le_left 0 (p + d))]

/-- C7 counterexample: an unknown surface error code (here 5) is shown
as the fixed "Unknown error." message, which is not the generic
could-not-load message and does not even contain the words of one; the
claim routes unknown codes to a could-not-load message. -/
theorem c7_unknown_code_counterexample :
    videoErrorMessage (some ⟨5⟩) = "Unknown error."
    ∧ videoErrorMessage (some ⟨5⟩) ≠ "Could not load video."
    ∧ jsIncludes (videoErrorMessage (some ⟨5⟩)) "ould not load" = false := by
  decide

/-- C7 amended: codes 1-4 map to their fixed class messages, an unknown
code maps to the fixed "Unknown error." message, and an absent error
object maps to the generic "Could not load video." message. -/
theorem c7_video_error_messages :
    videoErrorMessage none = "Could not load video."
    ∧ videoErrorMessage (some ⟨1⟩) = "Playback aborted."
    ∧ videoErrorMessage (some ⟨2⟩) =
        "Network error. Check the URL and your connection."
    ∧ videoErrorMessage (some ⟨3⟩) = "Decoding error. Format may be unsupported."
    ∧ videoErrorMessage (some ⟨4⟩) = "Source not supported or URL is invalid."
    ∧ ∀ c : Nat, c ≠ 1 → c ≠ 2 → c ≠ 3 → c ≠ 4 →
        videoErrorMessage (some ⟨c⟩) = "Unknown error." := by
  refine ⟨rfl, rfl, rfl, rfl, rfl, ?_⟩
  intro c h1 h2 h3 h4
  simp [videoErrorMessage, h1, h2, h3, h4]

/-- C7 witness: the amended mapping evaluated at the unknown code 9. -/
theorem c7_video_error_messages_witness :
    videoErrorMessage (some ⟨9⟩) = "Unknown error." :=
  c7_video_error_messages.2.2.2.2.2 9 (by decide) (by decide) (by decide)
    (by decide)

/-- C2: a fatal engine error triggers exactly one corrective action
determined by its class — network restarts loading, media-decode runs
the recovery procedure, and any other class shows a message containing
the detail string when present and the word unknown when absent — while
a non-fatal error performs no action at all. -/
theorem c2_recovery_policy (data : HlsErrorData) :
    (data.fatal = true → data.type = .networkError →
        onHlsError data = [.startLoad])
    ∧ (data.fatal = true → data.type = .mediaError →
        onHlsError data = [.recoverMediaError])
    ∧ (data.fatal = true → data.type = .otherError → ∃ msg,
        onHlsError data = [.showError msg]
        ∧ (∀ s, data.details = some s →
            ∃ pre post : List Char, msg.data = pre ++ s.data ++ post)
        ∧ (data.details = none →
            ∃ pre post : List Char, msg.data = pre ++ "unknown".data ++ post))
    ∧ (data.fatal = false → onHlsError data = []) := by
  obtain ⟨fatal, type, details⟩ := data
  refine ⟨fun hf ht => ?_, fun hf ht => ?_, fun hf ht => ?_, fun hnf => ?_⟩
  · subst hf; subst ht; rfl
  · subst hf; subst ht; rfl
  · subst hf; subst ht
    refine ⟨"HLS fatal error: " ++ jsStringOr details "unknown", rfl, ?_, ?_⟩
    · intro s hs
      subst hs
      by_cases hs0 : s = ""
      · subst hs0
        exact ⟨"HLS fatal error: ".data, "unknown".data,
          by simp [jsStringOr, String.data_append]⟩
      · exact ⟨"HLS fatal error: ".data, [],
          by simp [jsStringOr, hs0, String.data_append]⟩
    · intro hn
      subst hn
      exact ⟨"HLS fatal error: ".data, [],
        by simp [jsStringOr, String.data_append]⟩
  · subst hnf; rfl

/-- C2 witness: a fatal network error yields exactly the reload action,
and a non-fatal error yields no action. -/
theorem c2_recovery_policy_witness :
    onHlsError ⟨true, .networkError, none⟩ = [.startLoad]
    ∧ onHlsError ⟨false, .otherError, some "bufferStalledError"⟩ = [] :=
  ⟨(c2_recovery_policy ⟨true, .networkError, none⟩).1 rfl rfl,
   (c2_recovery_policy ⟨false, .otherError, some "bufferStalledError"⟩).2.2.2 rfl⟩

/-- The loop of `_getBufferAhead` misses exactly when no range contains
the current time. -/
theorem bufferAheadLoop_eq_none (ct : ℚ) (l : List (ℚ × ℚ)) :
    bufferAheadLoop ct l = none ↔ ∀ r ∈ l, ¬(r.1 ≤ ct ∧ ct ≤ r.2) := by
  induction l with
  | nil => simp [bufferAheadLoop]
  | cons r rest ih =>
    by_cases h : r.1 ≤ ct ∧ ct ≤ r.2
    · constructor
      · intro hnone
        simp only [bufferAheadLoop] at hnone
        rw [if_pos h] at hnone
        exact Option.noConfusion hnone
      · intro hall
        exact absurd h (hall r (List.mem_cons_self r rest))
    · simp only [bufferAheadLoop]
      rw [if_neg h, ih]
      constructor
      · intro hall r' hr'
        rcases List.mem_cons.mp hr' with hre | hrm
        · exact hre ▸ h
        · exact hall r' hrm
      · intro hall r' hr'
        exact hall r' (List.mem_cons_of_mem r hr')

/-- When at most one range contains the current time, the loop of
`_getBufferAhead` returns the distance to the end of that range. -/
theorem bufferAheadLoop_mem (ct : ℚ) :
    ∀ (l : List (ℚ × ℚ)) (r : ℚ × ℚ),
      (∀ a ∈ l, ∀ b ∈ l, a.1 ≤ ct → ct ≤ a.2 → b.1 ≤ ct → ct ≤ b.2 → a = b) →
      r ∈ l → r.1 ≤ ct → ct ≤ r.2 →
      bufferAheadLoop ct l = some (r.2 - ct)
  | [], r, _, hr, _, _ => absurd hr (List.not_mem_nil r)
  | a :: rest, r, huniq, hr, h1, h2 => by
    by_cases ha : a.1 ≤ ct ∧ ct ≤ a.2
    · have hae : a = r :=
        huniq a (List.mem_cons_self a rest) r hr ha.1 ha.2 h1 h2
      subst hae
      simp only [bufferAheadLoop]
      rw [if_pos ha]
    · rcases List.mem_cons.mp hr with hre | hrm
      · exact absurd ⟨hre ▸ h1, hre ▸ h2⟩ ha
      · have hrec := bufferAheadLoop_mem ct rest r
          (fun x hx y hy =>
            huniq x (List.mem_cons_of_mem a hx) y (List.mem_cons_of_mem a hy))
          hrm h1 h2
        simp only [bufferAheadLoop]
        rw [if_neg ha]
        exact hrec

/-- C6: under the browser guarantee that buffered time ranges do not
overlap (at most one range contains any given position), the telemetry
buffer-ahead value equals the end of the range containing the current
position minus that position, and is absent exactly when no range
contains the position. -/
theorem c6_buffer_ahead (buffered : List (ℚ × ℚ)) (ct : ℚ)
    (huniq : ∀ a ∈ buffered, ∀ b ∈ buffered,
      a.1 ≤ ct → ct ≤ a.2 → b.1 ≤ ct → ct ≤ b.2 → a = b) :
    (∀ r ∈ buffered, r.1 ≤ ct → ct ≤ r.2 →
        getBufferAhead buffered ct = some (r.2 - ct))
    ∧ (getBufferAhead buffered ct = none ↔
        ∀ r ∈ buffered, ¬(r.1 ≤ ct ∧ ct ≤ r.2)) := by
  constructor
  · intro r hr h1 h2
    cases buffered with
    | nil => cases hr
    | cons a rest =>
      simpa [getBufferAhead] using
        bufferAheadLoop_mem ct (a :: rest) r huniq hr h1 h2
  · cases buffered with
    | nil => simp [getBufferAhead]
    | cons a rest => simpa [getBufferAhead] using bufferAheadLoop_eq_none ct (a :: rest)

/-- C4 counterexample: on a manifest-parsed event with two audio tracks
of which one is active (index 0), the handler still executes the
forcing assignment, although the claimed condition (multiple tracks and
none active) is false there. -/
theorem c4_audio_forcing_counterexample :
    (onManifestParsed ⟨some [(), ()], 0⟩).2 = true
    ∧ specManifestForce ⟨some [(), ()], 0⟩ = false := by
  constructor
  · rfl
  · rfl

/-- C4 amended: the manifest-parsed handler forces audio track 0
exactly when the track list is present and non-empty, regardless of how
many tracks there are or whether one is already active; the
audio-track-loaded handler re-applies the forcing exactly when no track
is active and the track list is non-empty; in both handlers a rejected
state is left unchanged, and forcing sets the index to 0. -/
theorem c4_audio_forcing (s : HlsState) :
    ((onManifestParsed s).2 = true ↔
      ∃ ts, s.audioTracks = some ts ∧ 0 < ts.length)
    ∧ ((onManifestParsed s).2 = true → (onManifestParsed s).1.audioTrack = 0)
    ∧ ((onManifestParsed s).2 = false → (onManifestParsed s).1 = s)
    ∧ ((onAudioTrackLoaded s).2 = true ↔
      s.audioTrack < 0 ∧ 0 < (s.audioTracks.getD []).length)
    ∧ ((onAudioTrackLoaded s).2 = true → (onAudioTrackLoaded s).1.audioTrack = 0)
    ∧ ((onAudioTrackLoaded s).2 = false → (onAudioTrackLoaded s).1 = s) := by
  refine ⟨?_, ?_, ?_, ?_, ?_, ?_⟩
  · cases hts : s.audioTracks with
    | none => simp [onManifestParsed, hts]
    | some ts =>
      by_cases hl : 0 < ts.length <;> simp [onManifestParsed, hts, hl]
  · cases hts : s.audioTracks with
    | none => simp [onManifestParsed, hts]
    | some ts =>
      by_cases hl : 0 < ts.length <;> simp [onManifestParsed, hts, hl]
  · cases hts : s.audioTracks with
    | none => simp [onManifestParsed, hts]
    | some ts =>
      by_cases hl : 0 < ts.length <;> simp [onManifestParsed, hts, hl]
  · by_cases hc : s.audioTrack < 0 ∧ 0 < (s.audioTracks.getD []).length <;>
      simp [onAudioTrackLoaded, hc]
  · by_cases hc : s.audioTrack < 0 ∧ 0 < (s.audioTracks.getD []).length <;>
      simp [onAudioTrackLoaded, hc]
  · by_cases hc : s.audioTrack < 0 ∧ 0 < (s.audioTracks.getD []).length <;>
      simp [onAudioTrackLoaded, hc]

/-- C4 witness: with two tracks and none active, the manifest-parsed
handler forces selection and the index becomes 0. -/
theorem c4_audio_forcing_witness :
    (onManifestParsed ⟨some [(), ()], -1⟩).2 = true
    ∧ (onManifestParsed ⟨some [(), ()], -1⟩).1.audioTrack = 0 := by
  have h := c4_audio_forcing ⟨some [(), ()], -1⟩
  have h2 : (onManifestParsed ⟨some [(), ()], -1⟩).2 = true :=
    h.1.mpr ⟨[(), ()], rfl, by decide⟩
  exact ⟨h2, h.2.1 h2⟩

/-- C6 witness: at position 12 inside the single buffered range
`[5, 20]` the buffer-ahead value is 8 seconds. -/
theorem c6_buffer_ahead_witness :
    getBufferAhead [((5 : ℚ), 20)] 12 = some 8 := by
  have h := (c6_buffer_ahead [((5 : ℚ), 20)] 12
      (fun a ha b hb _ _ _ _ => by
        rw [List.mem_singleton.mp ha, List.mem_singleton.mp hb])).1
    (5, 20) (List.mem_singleton.mpr rfl) (by norm_num) (by norm_num)
  have h8 : (20 : ℚ) - 12 = 8 := by norm_num
  rw [h8] at h
  exact h

/-- Under the invariant, `_destroyHls` leaves no engine tracked, no
instance alive and no subscription, and keeps the id counter. -/
theorem destroyHls_spec (s : EngineState) (hs : EngineInv s) :
    destroyHls s =
      { nextId := s.nextId, hlsInstance := none, live := [], subs := [] } := by
  obtain ⟨n, inst, live, subs⟩ := s
  obtain ⟨h1, h2, h3⟩ := hs
  cases inst with
  | none =>
    simp only [Option.toList] at h1
    have hsubs : subs = [] := by
      cases hq : subs with
      | nil => rfl
      | cons p rest =>
        have hmem : p ∈ subs := by
          rw [hq]
          exact List.mem_cons_self p rest
        exact Option.noConfusion (h2 p hmem)
    simp [destroyHls, h1, hsubs]
  | some i =>
    simp only [Option.toList] at h1
    have herase : live.erase i = [] := by
      rw [h1]
      simp
    have hfilter : subs.filter (fun p => p.1 != i) = [] := by
      rw [List.filter_eq_nil_iff]
      intro p hp
      have hpi : p.1 = i := Option.some.inj (h2 p hp)
      simp [hpi]
    simp [destroyHls, herase, hfilter]

/-- A fresh engine constructed on a clean state satisfies the
invariant, is the only live instance, and owns every subscription. -/
theorem createHls_clean (n : Nat) :
    EngineInv (createHls ⟨n, none, [], []⟩)
    ∧ (createHls ⟨n, none, [], []⟩).live = [n]
    ∧ (createHls ⟨n, none, [], []⟩).nextId = n + 1
    ∧ ∀ sub ∈ (createHls ⟨n, none, [], []⟩).subs, sub.1 = n := by
  refine ⟨⟨rfl, ?_, ?_⟩, rfl, rfl, ?_⟩
  · intro p hp
    simp [createHls, hlsEventNames] at hp
    rcases hp with h | h | h <;> simp [h, createHls]
  · intro i hi
    simp only [createHls] at hi ⊢
    have hni : n = i := Option.some.inj hi
    omega
  · intro sub hsub
    simp [createHls, hlsEventNames] at hsub
    rcases hsub with h | h | h <;> simp [h]

/-- Every load ends either in a fresh engine on a clean state or in a
clean engineless state. -/
theorem loadVideoEngine_cases (kind : DeliveryKind) (p q : Bool)
    (s : EngineState) (hs : EngineInv s) :
    loadVideoEngine kind p q s = createHls ⟨s.nextId, none, [], []⟩
    ∨ loadVideoEngine kind p q s = ⟨s.nextId, none, [], []⟩ := by
  have hd := destroyHls_spec s hs
  cases kind with
  | HLS =>
    by_cases hpq : (p && q) = true
    · left
      simp [loadVideoEngine, hd, hpq]
    · right
      simp [loadVideoEngine, hd, hpq]
  | DASH =>
    right
    simp [loadVideoEngine, hd]
  | Progressive =>
    right
    simp [loadVideoEngine, hd]

/-- The engine-backed HLS load always constructs a fresh engine on the
cleaned state. -/
theorem loadVideoEngine_hls (s : EngineState) (hs : EngineInv s) :
    loadVideoEngine .HLS true true s = createHls ⟨s.nextId, none, [], []⟩ := by
  simp [loadVideoEngine, destroyHls_spec s hs]

/-- The clean engineless state satisfies the invariant. -/
theorem engineInv_clean (n : Nat) :
    EngineInv ⟨n, none, [], []⟩ :=
  ⟨rfl, fun p hp => absurd hp (List.not_mem_nil p),
   fun _ h => Option.noConfusion h⟩

/-- Two successive engine-backed HLS loads leave exactly one live
instance and give the first load no surviving subscription. -/
theorem two_hls_loads (s : EngineState) (hs : EngineInv s) :
    (loadVideoEngine .HLS true true
        (loadVideoEngine .HLS true true s)).live.length = 1
    ∧ ∀ sub ∈ (loadVideoEngine .HLS true true
        (loadVideoEngine .HLS true true s)).subs,
        sub.1 ∉ (loadVideoEngine .HLS true true s).live := by
  have h1 := loadVideoEngine_hls s hs
  obtain ⟨hinv1, hlive1, hnid1, hsubs1⟩ := createHls_clean s.nextId
  have hinv1s : EngineInv (loadVideoEngine .HLS true true s) := h1 ▸ hinv1
  have h2 := loadVideoEngine_hls _ hinv1s
  obtain ⟨hinv2, hlive2, hnid2, hsubs2⟩ :=
    createHls_clean (loadVideoEngine .HLS true true s).nextId
  constructor
  · rw [h2, hlive2]
    rfl
  · intro sub hsub
    rw [h2] at hsub
    have hfst := hsubs2 sub hsub
    have hnid : (loadVideoEngine .HLS true true s).nextId = s.nextId + 1 := by
      rw [h1, hnid1]
    have hlv : (loadVideoEngine .HLS true true s).live = [s.nextId] := by
      rw [h1, hlive1]
    rw [hfst, hnid, hlv]
    simp

/-- C3: a load disposes the previous engine instance before any new one
is constructed — the lifecycle invariant is preserved, at most one
instance is live after any load, no previously live instance or
previously registered subscription survives a load, and two successive
engine-backed HLS loads leave exactly one live instance with no
subscription belonging to the first. -/
theorem c3_single_engine (s : EngineState) (hs : EngineInv s)
    (kind : DeliveryKind) (p q : Bool) :
    EngineInv (loadVideoEngine kind p q s)
    ∧ (loadVideoEngine kind p q s).live.length ≤ 1
    ∧ (∀ i ∈ s.live, i ∉ (loadVideoEngine kind p q s).live)
    ∧ (∀ sub ∈ s.subs, sub ∉ (loadVideoEngine kind p q s).subs)
    ∧ (loadVideoEngine .HLS true true
        (loadVideoEngine .HLS true true s)).live.length = 1
    ∧ (∀ sub ∈ (loadVideoEngine .HLS true true
        (loadVideoEngine .HLS true true s)).subs,
        sub.1 ∉ (loadVideoEngine .HLS true true s).live) := by
  have hlive_lt : ∀ i ∈ s.live, i < s.nextId := by
    intro i hi
    rw [hs.1] at hi
    cases hinst : s.hlsInstance with
    | none =>
      rw [hinst] at hi
      cases hi
    | some j =>
      rw [hinst] at hi
      simp [Option.toList] at hi
      rw [hi]
      exact hs.2.2 j hinst
  have hsubs_lt : ∀ sub ∈ s.subs, sub.1 < s.nextId := by
    intro sub hsub
    exact hs.2.2 sub.1 (hs.2.1 sub hsub).symm
  have htwo := two_hls_loads s hs
  rcases loadVideoEngine_cases kind p q s hs with hcase | hcase
  · obtain ⟨hinv, hlive, hnid, hsubs⟩ := createHls_clean s.nextId
    refine ⟨hcase ▸ hinv, ?_, ?_, ?_, htwo.1, htwo.2⟩
    · rw [hcase, hlive]
      simp
    · intro i hi
      rw [hcase, hlive]
      have := hlive_lt i hi
      simp
      omega
    · intro sub hsub hmem
      rw [hcase] at hmem
      have := hsubs sub hmem
      have := hsubs_lt sub hsub
      omega
  · refine ⟨hcase ▸ engineInv_clean s.nextId, ?_, ?_, ?_, htwo.1, htwo.2⟩
    · rw [hcase]
      simp
    · intro i hi
      rw [hcase]
      simp
    · intro sub hsub
      rw [hcase]
      simp

/-- C3 witness: from the initial state, two engine-backed HLS loads end
with exactly one live engine instance. -/
theorem c3_single_engine_witness :
    (loadVideoEngine .HLS true true
      (loadVideoEngine .HLS true true initEngine)).live.length = 1 :=
  (c3_single_engine initEngine (engineInv_clean 0) .HLS true true).2.2.2.2.1

/-- In a list whose range ends are pairwise monotone, every end is at
most the end of the last range. -/
theorem ends_le_getLast :
    ∀ (l : List (ℚ × ℚ)) (hne : l ≠ []),
      l.Pairwise (fun a b => a.2 ≤ b.2) →
      ∀ r ∈ l, r.2 ≤ (l.getLast hne).2
  | [], hne, _, _, _ => absurd rfl hne
  | [a], _, _, r, hr => by
      have hra : r = a := by simpa using hr
      simp [hra]
  | a :: b :: rest, hne, hp, r, hr => by
      have hrest : (b :: rest) ≠ [] := List.cons_ne_nil b rest
      have hlast : (a :: b :: rest).getLast hne = (b :: rest).getLast hrest :=
        List.getLast_cons hrest
      rcases List.mem_cons.mp hr with hra | hrm
      · have hab := (List.pairwise_cons.mp hp).1
        have hlm : (b :: rest).getLast hrest ∈ b :: rest := List.getLast_mem hrest
        rw [hlast, hra]
        exact hab _ hlm
      · have hrec :=
          ends_le_getLast (b :: rest) hrest (List.pairwise_cons.mp hp).2 r hrm
        rw [hlast]
        exact hrec

/-- C8: with a known nonzero duration, well-formed buffered ranges with
monotone ends, and at least one range containing or following the
current position, the buffered-bar handler computes its fraction as the
end of the furthest such range divided by the duration. -/
theorem c8_buffer_bar (D ct : ℚ) (buffered : List (ℚ × ℚ)) (hD : D ≠ 0)
    (hwf : ∀ r ∈ buffered, r.1 ≤ r.2)
    (hsorted : buffered.Pairwise (fun a b => a.2 ≤ b.2))
    (hex : ∃ r ∈ buffered, containsOrFollows ct r) :
    ∃ r ∈ buffered, containsOrFollows ct r
      ∧ (∀ r2 ∈ buffered, containsOrFollows ct r2 → r2.2 ≤ r.2)
      ∧ onProgress (some D) buffered = some (r.2 / D) := by
  obtain ⟨r0, hr0, hcf0⟩ := hex
  have hne : buffered ≠ [] := by
    intro h
    rw [h] at hr0
    cases hr0
  have hlst : buffered.getLast? = some (buffered.getLast hne) :=
    List.getLast?_eq_getLast_of_ne_nil hne
  have hmax : ∀ r ∈ buffered, r.2 ≤ (buffered.getLast hne).2 :=
    ends_le_getLast buffered hne hsorted
  have hct_le : ct ≤ (buffered.getLast hne).2 := by
    rcases hcf0 with ⟨_, h2⟩ | h1
    · exact le_trans h2 (hmax r0 hr0)
    · exact le_trans (le_trans h1 (hwf r0 hr0)) (hmax r0 hr0)
  have hcf_lst : containsOrFollows ct (buffered.getLast hne) := by
    by_cases hh : (buffered.getLast hne).1 ≤ ct
    · exact Or.inl ⟨hh, hct_le⟩
    · exact Or.inr (le_of_not_le hh)
  refine ⟨buffered.getLast hne, List.getLast_mem hne, hcf_lst,
    fun r2 hr2 _ => hmax r2 hr2, ?_⟩
  simp [onProgress, jsTruthyDuration, hD, hne, hlst]

/-- C8 witness: with duration 100, position 2 and buffered ranges
`[0,10]` and `[15,30]`, the fraction comes from end 30 of the furthest
range that contains or follows the position. -/
theorem c8_buffer_bar_witness :
    ∃ r ∈ [((0 : ℚ), 10), (15, 30)], containsOrFollows 2 r
      ∧ (∀ r2 ∈ [((0 : ℚ), 10), (15, 30)], containsOrFollows 2 r2 → r2.2 ≤ r.2)
      ∧ onProgress (some 100) [((0 : ℚ), 10), (15, 30)] = some (r.2 / 100) :=
  c8_buffer_bar 100 2 [((0 : ℚ), 10), (15, 30)] (by norm_num)
    (by
      intro r hr
      rcases List.mem_cons.mp hr with h | h
      · rw [h]
        norm_num
      · have hr2 : r = ((15 : ℚ), 30) := by simpa using h
        rw [hr2]
        norm_num)
    (by
      constructor
      · intro b hb
        have hb2 : b = ((15 : ℚ), 30) := by simpa using hb
        rw [hb2]
        norm_num
      · simp)
    ⟨(0, 10), by simp, Or.inl (by norm_num)⟩

/-- Each step of the unmute event system preserves the timer
invariant. -/
theorem stepPlayer_inv (e : PlayerEvent) (s : UnmuteState)
    (hs : UnmuteInv s) : UnmuteInv (stepPlayer e s) := by
  cases e with
  | playing =>
    by_cases hp : s.unmutePending = true
    · simp only [UnmuteInv] at hs ⊢
      simp [stepPlayer, scheduleUnmute, hp, hs]
    · simp only [UnmuteInv] at hs ⊢
      rw [if_neg hp] at hs
      simp [stepPlayer, scheduleUnmute, hp, hs]
  | play =>
    by_cases hp : s.unmutePending = true
    · simp only [UnmuteInv] at hs ⊢
      simp [stepPlayer, scheduleUnmute, hp, hs]
    · simp only [UnmuteInv] at hs ⊢
      rw [if_neg hp] at hs
      simp [stepPlayer, scheduleUnmute, hp, hs]
  | timerFire =>
    by_cases hp : s.unmutePending = true
    · simp only [UnmuteInv] at hs ⊢
      rw [if_pos hp] at hs
      simp [stepPlayer, unmuteTimerFire, hs]
    · simp only [UnmuteInv] at hs ⊢
      rw [if_neg hp] at hs
      simp [stepPlayer, unmuteTimerFire, hs, hp]
  | setPaused b =>
    simp only [UnmuteInv] at hs ⊢
    simpa [stepPlayer] using hs
  | timeUpdate t =>
    simp only [UnmuteInv] at hs ⊢
    simpa [stepPlayer] using hs

/-- Running any event sequence preserves the timer invariant. -/
theorem runPlayer_inv (evs : List PlayerEvent) (s : UnmuteState)
    (hs : UnmuteInv s) : UnmuteInv (runPlayer s evs) := by
  induction evs generalizing s with
  | nil => exact hs
  | cons e es ih => exact ih (stepPlayer e s) (stepPlayer_inv e s hs)

/-- C9: in every run from the post-load state, at most one unmute
timeout is pending and every pending one has the 100 ms debounce delay;
a playing or play signal arriving while one is pending changes nothing;
only playing and play signals ever schedule a timeout; and the surface
is unmuted only at a timeout expiry at which playback is not paused and
the position exceeds 0.1 seconds. -/
theorem c9_unmute_timer (evs : List PlayerEvent) :
    ((runPlayer initUnmute evs).timers.length ≤ 1
      ∧ ∀ d ∈ (runPlayer initUnmute evs).timers, d = 100)
    ∧ (∀ s : UnmuteState, s.unmutePending = true →
        stepPlayer .playing s = s ∧ stepPlayer .play s = s)
    ∧ (∀ (s : UnmuteState) (e : PlayerEvent),
        s.timers.length < (stepPlayer e s).timers.length →
        e = .playing ∨ e = .play)
    ∧ (∀ (s : UnmuteState) (e : PlayerEvent),
        s.muted = true → (stepPlayer e s).muted = false →
        e = .timerFire ∧ s.paused = false ∧ (1 / 10 : ℚ) < s.currentTime) := by
  refine ⟨?_, ?_, ?_, ?_⟩
  · have hinv := runPlayer_inv evs initUnmute rfl
    simp only [UnmuteInv] at hinv
    rw [hinv]
    by_cases hp : (runPlayer initUnmute evs).unmutePending = true <;> simp [hp]
  · intro s hp
    exact ⟨by simp [stepPlayer, scheduleUnmute, hp],
           by simp [stepPlayer, scheduleUnmute, hp]⟩
  · intro s e h
    cases e with
    | playing => exact Or.inl rfl
    | play => exact Or.inr rfl
    | timerFire =>
      exfalso
      cases ht : s.timers with
      | nil =>
        simp [stepPlayer, unmuteTimerFire, ht] at h
      | cons x rest =>
        simp [stepPlayer, unmuteTimerFire, ht] at h
    | setPaused b =>
      exfalso
      simp [stepPlayer] at h
    | timeUpdate t =>
      exfalso
      simp [stepPlayer] at h
  · intro s e hm0 hm1
    cases e with
    | playing =>
      exfalso
      by_cases hp : s.unmutePending = true <;>
        simp [stepPlayer, scheduleUnmute, hp, hm0] at hm1
    | play =>
      exfalso
      by_cases hp : s.unmutePending = true <;>
        simp [stepPlayer, scheduleUnmute, hp, hm0] at hm1
    | timerFire =>
      refine ⟨rfl, ?_⟩
      cases ht : s.timers with
      | nil =>
        exfalso
        simp [stepPlayer, unmuteTimerFire, ht, hm0] at hm1
      | cons x rest =>
        by_cases hc : s.paused = false ∧ (1 / 10 : ℚ) < s.currentTime
        · exact hc
        · exfalso
          have hmu : (stepPlayer .timerFire s).muted = s.muted := by
            simp only [stepPlayer, unmuteTimerFire, ht]
            rw [if_neg hc]
          rw [hmu, hm0] at hm1
          exact Bool.noConfusion hm1
    | setPaused b =>
      exfalso
      simp [stepPlayer, hm0] at hm1
    | timeUpdate t =>
      exfalso
      simp [stepPlayer, hm0] at hm1

/-- C9 witness: two start signals in a row leave at most one pending
timeout, and a start signal with a timeout already pending changes
nothing. -/
theorem c9_unmute_timer_witness :
    (runPlayer initUnmute [.playing, .play]).timers.length ≤ 1
    ∧ stepPlayer .playing ⟨true, [100], true, false, 5⟩
        = ⟨true, [100], true, false, 5⟩ :=
  ⟨(c9_unmute_timer [.playing, .play]).1.1,
   ((c9_unmute_timer []).2.1 ⟨true, [100], true, false, 5⟩ rfl).1⟩

end XMediaPlayer
